import Mathlib

/-!
Shallow embedding of the four feature-selection functions of
`feature_selection_lennart_wallentin.ipynb`:
`interpretable_feature_selection`, `interpretable_precise_feature_selection`,
`automated_feature_selection`, `automated_precise_feature_selection`.

Modelling conventions:
* AUC scores, the `auc_limit` and confidence level `ci` are rationals.
* A trained classifier is represented by the importance dictionary its
  `get_booster().get_score(importance_type=...)` call returns, a list of
  (feature name, importance score) pairs.
* `xtrain` / `xtest` DataFrames are represented by their column-name lists;
  the external train/evaluate pipeline (xgb.cv + fit + roc_curve + auc) is an
  oracle `ev` mapping the two subset column lists to an AUC score.
* Python `range(a, b, -s)` is `pyRangeDown a b s`; `np.quantile` with the
  default linear interpolation is `npQuantile`; `iloc[:n]` (including the
  negative-`n` slice semantics) is `pyTake`; `round(x, 4)` (banker's
  rounding) is `round4`; the truthiness test `if not low_num_features` on an
  optional integer is `pyFalsy`.
-/

/-- Error outcomes surfaced to the caller: `invalidImportanceType` models the
ValueError raised by `get_score` on an unrecognized `importance_type`;
`emptyImportance` models the ValueError `np.quantile` raises on a zero-size
input (only the two broad-search functions call `np.quantile`). -/
inductive FSError where
  | invalidImportanceType
  | emptyImportance
deriving DecidableEq

deriving instance DecidableEq for Except

/-- Fuel-indexed generator behind `pyRangeDown`; the fuel only bounds the
recursion depth and `(a - b).toNat` steps always suffice. -/
def pyRangeDownFuel (s : Nat) : Nat → Int → Int → List Int
  | 0, _, _ => []
  | fuel + 1, a, b =>
    if 0 < s ∧ b < a then a :: pyRangeDownFuel s fuel (a - s) b else []

/-- Python `range(a, b, -s)` for a natural step `s`: the descending values
`a, a - s, a - 2s, ...` strictly greater than `b`; empty when `s = 0`
(Python raises there; no claim exercises a zero step). -/
def pyRangeDown (a b : Int) (s : Nat) : List Int :=
  pyRangeDownFuel s (a - b).toNat a b

/-- Python slice `xs.iloc[:n]` on a list: the first `n` elements for
`n ≥ 0`, and all but the last `|n|` elements for `n < 0`. -/
def pyTake {α : Type} (n : Int) (xs : List α) : List α :=
  if 0 ≤ n then xs.take n.toNat else xs.take (xs.length - (-n).toNat)

/-- Banker's rounding of a rational to an integer, as Python `round` does on
the halfway case. -/
def roundHalfEven (q : ℚ) : ℤ :=
  if q - ⌊q⌋ < 1/2 then ⌊q⌋
  else if 1/2 < q - ⌊q⌋ then ⌊q⌋ + 1
  else if ⌊q⌋ % 2 = 0 then ⌊q⌋ else ⌊q⌋ + 1

/-- Python `round(q, 4)`. -/
def round4 (q : ℚ) : ℚ := (roundHalfEven (q * 10000) : ℚ) / 10000

/-- `np.quantile(xs, q)` with the default linear interpolation: on the
ascending sort `v` of `xs`, with `h = q * (len - 1)`, returns
`v[⌊h⌋] + (h - ⌊h⌋) * (v[⌊h⌋+1] - v[⌊h⌋])`. -/
def npQuantile (xs : List ℚ) (q : ℚ) : ℚ :=
  if xs = [] then 0
  else
    (xs.insertionSort (· ≤ ·)).getD (⌊q * (xs.length - 1)⌋).toNat 0 +
      (q * (xs.length - 1) - ⌊q * (xs.length - 1)⌋) *
        ((xs.insertionSort (· ≤ ·)).getD ((⌊q * (xs.length - 1)⌋).toNat + 1)
            ((xs.insertionSort (· ≤ ·)).getD (⌊q * (xs.length - 1)⌋).toNat 0) -
          (xs.insertionSort (· ≤ ·)).getD (⌊q * (xs.length - 1)⌋).toNat 0)

/-- `sum(series <= q)` over a list of scores: how many are at or below `q`. -/
def countLE (xs : List ℚ) (q : ℚ) : ℕ :=
  (xs.filter (fun x => decide (x ≤ q))).length

/-- `feature_importance_df`: the importance table sorted by score,
descending (`sort_values(ascending=False)`). -/
def sortDesc (xs : List (String × ℚ)) : List (String × ℚ) :=
  xs.insertionSort (fun a b => b.2 ≤ a.2)

/-- The recognized `importance_type` values of `get_score` for tree models. -/
def validImportanceTypes : List String :=
  ["gain", "weight", "cover", "total_gain", "total_cover"]

/-- `z_score = ci - ((1.-ci)/2)`. -/
def zScore (ci : ℚ) : ℚ := ci - (1 - ci)/2

/-- The acceptance cutoff `auc_limit * z_score`. -/
def acceptThreshold (auc_limit ci : ℚ) : ℚ := auc_limit * zScore ci

/-- The acceptance test `auc >= auc_limit*z_score`. -/
def passes (thr auc : ℚ) : Bool := decide (thr ≤ auc)

/-- Candidate counts of the two broad-search functions:
`range(sum(df <= np.quantile(df, 0.75)), sum(df <= np.quantile(df, 0.25))-1, -abs(steps))`. -/
def broadCandidates (scores : List ℚ) (steps : Int) : List Int :=
  pyRangeDown (countLE scores (npQuantile scores (3/4)))
    ((countLE scores (npQuantile scores (1/4)) : Int) - 1) steps.natAbs

/-- Candidate counts of the two precise-search functions:
`range(start_num_features + span, (start_num_features - span) - 1, -1)`. -/
def preciseCandidates (start_num_features span : Int) : List Int :=
  pyRangeDown (start_num_features + span) (start_num_features - span - 1) 1

/-- The AUC obtained for candidate count `n`: restrict the current `xtrain`
and `xtest` columns to the names of `feature_importance_df.iloc[:n]` and ask
the external train/evaluate pipeline for the score. -/
def evalCandidate (fdf : List (String × ℚ)) (ev : List String → List String → ℚ)
    (xtr xte : List String) (n : Int) : ℚ :=
  let keepNames := (pyTake n fdf).map Prod.fst
  ev (xtr.filter (fun c => keepNames.contains c))
    (xte.filter (fun c => keepNames.contains c))

/-- Local state threaded through the search loop: the (rebindable) `xtrain`
and `xtest` locals plus the accumulator (`auc_num_features` list or
`low_num_features` option). -/
structure ScanState (α : Type) where
  xtrain : List String
  xtest : List String
  acc : α
deriving DecidableEq

/-- One iteration of the shared search body: subset the current tables,
evaluate, update the accumulator, then restore `xtrain = org_xtrain` and
`xtest = org_xtest` for the next iteration. -/
def scanStep {α : Type} (fdf : List (String × ℚ)) (ev : List String → List String → ℚ)
    (orgTr orgTe : List String) (upd : α → ℚ → Int → α)
    (s : ScanState α) (n : Int) : ScanState α :=
  let auc := evalCandidate fdf ev s.xtrain s.xtest n
  { xtrain := orgTr, xtest := orgTe, acc := upd s.acc auc n }

/-- The whole `for num_features in range(...)` loop, starting from the
caller-supplied tables. -/
def runScan {α : Type} (fdf : List (String × ℚ)) (ev : List String → List String → ℚ)
    (orgTr orgTe : List String) (upd : α → ℚ → Int → α)
    (init : α) (cands : List Int) : ScanState α :=
  cands.foldl (scanStep fdf ev orgTr orgTe upd) ⟨orgTr, orgTe, init⟩

/-- Accumulator update of the interpretable (exploratory) functions:
`if auc >= auc_limit*z_score: auc_num_features += [(round(auc,4), num_features)]`. -/
def exploreUpd (thr : ℚ) (acc : List (ℚ × Int)) (auc : ℚ) (n : Int) : List (ℚ × Int) :=
  if passes thr auc then acc ++ [(round4 auc, n)] else acc

/-- Accumulator update of the automated functions:
`if auc >= auc_limit*z_score: low_num_features = num_features`. -/
def autoUpd (thr : ℚ) (acc : Option Int) (auc : ℚ) (n : Int) : Option Int :=
  if passes thr auc then some n else acc

/-- Python truthiness test `not low_num_features` on an optional integer:
true for `None` and for `0`. -/
def pyFalsy : Option Int → Bool
  | none => true
  | some k => k == 0

/-- First option when present, otherwise the fallback; spec-side vocabulary
for describing the final value of the automated accumulator. -/
def optOr (o fallback : Option Int) : Option Int :=
  match o with
  | some x => some x
  | none => fallback

/-- `interpretable_feature_selection`: broad exploratory search. Returns the
accepted `(round(auc,4), num_features)` pairs together with the
warning flag (`warnings.warn` fires when the list stayed empty). -/
def interpretable_feature_selection (fi : List (String × ℚ)) (auc_limit : ℚ)
    (importance_type : String) (ci : ℚ) (steps : Int)
    (xtrain xtest : List String) (ev : List String → List String → ℚ) :
    Except FSError (List (ℚ × Int) × Bool) :=
  if validImportanceTypes.contains importance_type then
    if fi = [] then .error .emptyImportance
    else
      let fdf := sortDesc fi
      let scores := fdf.map Prod.snd
      let thr := acceptThreshold auc_limit ci
      let res := runScan fdf ev xtrain xtest (exploreUpd thr) []
        (broadCandidates scores steps)
      .ok (res.acc, res.acc.isEmpty)
  else .error .invalidImportanceType

/-- `interpretable_precise_feature_selection`: narrow exploratory search
around `start_num_features`. -/
def interpretable_precise_feature_selection (fi : List (String × ℚ))
    (start_num_features : Int) (auc_limit : ℚ)
    (importance_type : String) (ci : ℚ) (span : Int)
    (xtrain xtest : List String) (ev : List String → List String → ℚ) :
    Except FSError (List (ℚ × Int) × Bool) :=
  if validImportanceTypes.contains importance_type then
    let fdf := sortDesc fi
    let thr := acceptThreshold auc_limit ci
    let res := runScan fdf ev xtrain xtest (exploreUpd thr) []
      (preciseCandidates start_num_features span)
    .ok (res.acc, res.acc.isEmpty)
  else .error .invalidImportanceType

/-- `automated_feature_selection`: broad automated search. Returns the chosen
count and the warning flag; `if not low_num_features` falls back to
`len(org_xtrain.columns)`. -/
def automated_feature_selection (fi : List (String × ℚ)) (auc_limit : ℚ)
    (importance_type : String) (ci : ℚ) (steps : Int)
    (xtrain xtest : List String) (ev : List String → List String → ℚ) :
    Except FSError (Int × Bool) :=
  if validImportanceTypes.contains importance_type then
    if fi = [] then .error .emptyImportance
    else
      let fdf := sortDesc fi
      let scores := fdf.map Prod.snd
      let thr := acceptThreshold auc_limit ci
      let res := runScan fdf ev xtrain xtest (autoUpd thr) none
        (broadCandidates scores steps)
      if pyFalsy res.acc then .ok ((xtrain.length : Int), true)
      else .ok (res.acc.getD 0, false)
  else .error .invalidImportanceType

/-- `automated_precise_feature_selection`: narrow automated search around
`start_num_features`; `if not lowest_num_features` falls back to
`start_num_features`. -/
def automated_precise_feature_selection (fi : List (String × ℚ))
    (start_num_features : Int) (auc_limit : ℚ)
    (importance_type : String) (ci : ℚ) (span : Int)
    (xtrain xtest : List String) (ev : List String → List String → ℚ) :
    Except FSError (Int × Bool) :=
  if validImportanceTypes.contains importance_type then
    let fdf := sortDesc fi
    let thr := acceptThreshold auc_limit ci
    let res := runScan fdf ev xtrain xtest (autoUpd thr) none
      (preciseCandidates start_num_features span)
    if pyFalsy res.acc then .ok (start_num_features, true)
    else .ok (res.acc.getD 0, false)
  else .error .invalidImportanceType

/-- The scanned candidate counts whose evaluated AUC passes the threshold,
in iteration order; spec-side vocabulary for stating the claims. -/
def passingCounts (fdf : List (String × ℚ)) (ev : List String → List String → ℚ)
    (thr : ℚ) (xtr xte : List String) (cands : List Int) : List Int :=
  cands.filter (fun n => passes thr (evalCandidate fdf ev xtr xte n))

/-! ### Helper lemmas about the range generator -/

theorem pyRangeDownFuel_mem (s : Nat) (hs : 0 < s) (n : Int) (f : Nat) :
    ∀ (a b : Int), (a - b).toNat ≤ f →
      (n ∈ pyRangeDownFuel s f a b ↔ ∃ k : ℕ, n = a - (k : ℤ) * s ∧ b < n) := by
  induction f with
  | zero =>
    intro a b hf
    simp only [pyRangeDownFuel, List.not_mem_nil, false_iff]
    rintro ⟨k, rfl, hb⟩
    have hks : (0:ℤ) ≤ (k : ℤ) * s := by positivity
    omega
  | succ f ih =>
    intro a b hf
    simp only [pyRangeDownFuel]
    split_ifs with h
    · constructor
      · intro hmem
        rcases List.mem_cons.mp hmem with rfl | hmem
        · exact ⟨0, by simp, h.2⟩
        · obtain ⟨k, hk, hb⟩ := (ih (a - s) b (by omega)).mp hmem
          exact ⟨k + 1, by push_cast [hk]; ring, hb⟩
      · rintro ⟨k, rfl, hb⟩
        cases k with
        | zero => simp
        | succ k =>
          refine List.mem_cons.mpr (.inr ((ih (a - s) b (by omega)).mpr ⟨k, by push_cast; ring, hb⟩))
    · simp only [List.not_mem_nil, false_iff]
      rintro ⟨k, rfl, hb⟩
      have hks : (0:ℤ) ≤ (k : ℤ) * s := by positivity
      exact h ⟨hs, by omega⟩

theorem pyRangeDown_mem (a b : Int) (s : Nat) (hs : 0 < s) (n : Int) :
    n ∈ pyRangeDown a b s ↔ ∃ k : ℕ, n = a - (k : ℤ) * s ∧ b < n :=
  pyRangeDownFuel_mem s hs n _ a b le_rfl

theorem pyRangeDown_bounds {a b : Int} {s : Nat} (hs : 0 < s) {n : Int}
    (hn : n ∈ pyRangeDown a b s) : b < n ∧ n ≤ a := by
  obtain ⟨k, rfl, hb⟩ := (pyRangeDown_mem a b s hs n).mp hn
  have hks : (0:ℤ) ≤ (k : ℤ) * s := by positivity
  exact ⟨hb, by omega⟩

theorem pyRangeDownFuel_pairwise (s : Nat) (hs : 0 < s) (f : Nat) :
    ∀ (a b : Int), (a - b).toNat ≤ f →
      (pyRangeDownFuel s f a b).Pairwise (fun x y => y < x) := by
  induction f with
  | zero => intro a b _; simp [pyRangeDownFuel]
  | succ f ih =>
    intro a b hf
    simp only [pyRangeDownFuel]
    split_ifs with h
    · refine List.Pairwise.cons ?_ (ih (a - s) b (by omega))
      intro x hx
      obtain ⟨k, rfl, _⟩ := (pyRangeDownFuel_mem s hs x f (a - s) b (by omega)).mp hx
      have hks : (0:ℤ) ≤ (k : ℤ) * s := by positivity
      omega
    · simp

theorem pyRangeDown_pairwise (a b : Int) (s : Nat) (hs : 0 < s) :
    (pyRangeDown a b s).Pairwise (fun x y => y < x) :=
  pyRangeDownFuel_pairwise s hs _ a b le_rfl

theorem pyRangeDownFuel_head (s f : Nat) (a b : Int) :
    pyRangeDownFuel s f a b = [] ∨ ∃ t, pyRangeDownFuel s f a b = a :: t := by
  cases f with
  | zero => exact .inl rfl
  | succ f =>
    simp only [pyRangeDownFuel]
    split_ifs with h
    · exact .inr ⟨_, rfl⟩
    · exact .inl rfl

theorem pyRangeDownFuel_chain_one (f : Nat) :
    ∀ (a b : Int), (a - b).toNat ≤ f →
      List.Chain' (fun x y => y = x - 1) (pyRangeDownFuel 1 f a b) := by
  induction f with
  | zero => intro a b _; simp [pyRangeDownFuel]
  | succ f ih =>
    intro a b hf
    simp only [pyRangeDownFuel]
    split_ifs with h
    · rw [List.chain'_cons']
      refine ⟨?_, ih (a - 1) b (by omega)⟩
      intro y hy
      simp only [Nat.cast_one] at hy
      rcases pyRangeDownFuel_head 1 f (a - 1) b with he | ⟨t, ht⟩
      · rw [he] at hy; simp at hy
      · rw [ht] at hy
        simp only [List.head?_cons, Option.mem_def, Option.some.injEq] at hy
        omega
    · simp

theorem pyRangeDown_chain_one (a b : Int) :
    List.Chain' (fun x y => y = x - 1) (pyRangeDown a b 1) :=
  pyRangeDownFuel_chain_one _ a b le_rfl

/-! ### Helper lemmas about the search loop -/

theorem runScan_eq {α : Type} (fdf : List (String × ℚ)) (ev : List String → List String → ℚ)
    (orgTr orgTe : List String) (upd : α → ℚ → Int → α) (cands : List Int) :
    ∀ (init : α),
      runScan fdf ev orgTr orgTe upd init cands =
        ⟨orgTr, orgTe,
          cands.foldl (fun acc n => upd acc (evalCandidate fdf ev orgTr orgTe n) n) init⟩ := by
  induction cands with
  | nil => intro init; rfl
  | cons n rest ih => intro init; exact ih (upd init (evalCandidate fdf ev orgTr orgTe n) n)

theorem foldl_explore {β : Type} (p : Int → Bool) (f : Int → β)
    (g : List β → Int → List β) (hg : ∀ a n, g a n = if p n then a ++ [f n] else a)
    (l : List Int) :
    ∀ (acc : List β), l.foldl g acc = acc ++ (l.filter p).map f := by
  induction l with
  | nil => intro acc; simp
  | cons n rest ih =>
    intro acc
    rw [List.foldl_cons, hg, ih]
    by_cases h : p n
    · simp [List.filter_cons, h, List.append_assoc]
    · simp [List.filter_cons, h]

theorem foldl_lastPassing (p : Int → Bool) (g : Option Int → Int → Option Int)
    (hg : ∀ a n, g a n = if p n then some n else a) (l : List Int) :
    ∀ (acc : Option Int), l.foldl g acc = optOr (l.filter p).getLast? acc := by
  induction l with
  | nil => intro acc; rfl
  | cons n rest ih =>
    intro acc
    rw [List.foldl_cons, hg, ih]
    by_cases h : p n
    · rw [if_pos h, List.filter_cons_of_pos h]
      cases hrf : rest.filter p with
      | nil => rfl
      | cons x t =>
        rw [List.getLast?_cons_cons,
          List.getLast?_eq_getLast_of_ne_nil (List.cons_ne_nil x t)]
        rfl
    · rw [if_neg h, List.filter_cons_of_neg h]

theorem getLast_pairwise_min (l : List Int) :
    l.Pairwise (fun x y => y < x) → ∀ y, l.getLast? = some y → ∀ x ∈ l, y ≤ x := by
  induction l with
  | nil => intro _ y hy; simp at hy
  | cons a t ih =>
    intro hp y hy x hx
    rcases List.pairwise_cons.mp hp with ⟨ha, ht⟩
    cases t with
    | nil =>
      simp only [List.getLast?_singleton, Option.some.injEq] at hy
      rcases List.mem_singleton.mp hx with rfl
      omega
    | cons c t' =>
      rw [List.getLast?_cons_cons] at hy
      have hymem : y ∈ c :: t' := by
        obtain ⟨hne, hy'⟩ := List.mem_getLast?_eq_getLast (Option.mem_def.mpr hy)
        rw [hy']
        exact List.getLast_mem hne
      rcases List.mem_cons.mp hx with rfl | hx'
      · exact le_of_lt (ha y hymem)
      · exact ih ht y hy x hx'

/-! ### Helper lemmas about the quantile bounds -/

theorem exists_le_npQuantile (xs : List ℚ) (hxs : xs ≠ []) (q : ℚ)
    (hq0 : 0 ≤ q) (hq1 : q ≤ 1) : ∃ x ∈ xs, x ≤ npQuantile xs q := by
  rw [npQuantile, if_neg hxs]
  set v := xs.insertionSort (· ≤ ·) with hv
  set hq : ℚ := q * (xs.length - 1) with hhq
  set i : ℤ := ⌊hq⌋ with hi
  have hperm : v.Perm xs := List.perm_insertionSort _ xs
  have hsorted : v.Sorted (· ≤ ·) := List.sorted_insertionSort _ xs
  have hvlen : v.length = xs.length := hperm.length_eq
  have hlen : 0 < xs.length := List.length_pos.mpr hxs
  have hvne : v ≠ [] := by
    intro hnil
    rw [hnil] at hperm
    exact hxs hperm.nil_eq.symm
  obtain ⟨x, v', hcons⟩ := List.exists_cons_of_ne_nil hvne
  have hxmem : x ∈ xs := hperm.subset (by rw [hcons]; exact List.mem_cons_self x v')
  have hmin : ∀ y ∈ v, x ≤ y := by
    intro y hy
    rw [hcons] at hy hsorted
    rcases List.mem_cons.mp hy with rfl | hy'
    · exact le_refl y
    · exact (List.sorted_cons.mp hsorted).1 y hy'
  refine ⟨x, hxmem, ?_⟩
  have hL1 : (0:ℚ) ≤ (xs.length : ℚ) - 1 := by
    have : (1:ℚ) ≤ (xs.length : ℚ) := by exact_mod_cast hlen
    linarith
  have hh0 : 0 ≤ hq := mul_nonneg hq0 hL1
  have hi0 : 0 ≤ i := Int.floor_nonneg.mpr hh0
  have hhle : hq ≤ (xs.length : ℚ) - 1 := by
    calc hq = q * ((xs.length : ℚ) - 1) := rfl
    _ ≤ 1 * ((xs.length : ℚ) - 1) := by
        exact mul_le_mul_of_nonneg_right hq1 hL1
    _ = (xs.length : ℚ) - 1 := one_mul _
  have hile : i ≤ (xs.length : ℤ) - 1 := by
    have h1 : ((xs.length : ℤ) - 1 : ℤ) = ⌊((xs.length : ℚ) - 1 : ℚ)⌋ := by
      rw [show ((xs.length : ℚ) - 1 : ℚ) = (((xs.length : ℤ) - 1 : ℤ) : ℚ) by push_cast; ring]
      rw [Int.floor_intCast]
    rw [h1]
    exact Int.floor_le_floor hhle
  have hidx : i.toNat < v.length := by rw [hvlen]; omega
  have hlo_ge : x ≤ v.getD i.toNat 0 := by
    rw [List.getD_eq_getElem v 0 hidx]
    exact hmin _ (List.getElem_mem hidx)
  have hhi_ge : x ≤ v.getD (i.toNat + 1) (v.getD i.toNat 0) := by
    by_cases hcase : i.toNat + 1 < v.length
    · rw [List.getD_eq_getElem v _ hcase]
      exact hmin _ (List.getElem_mem hcase)
    · rw [List.getD_eq_default _ _ (by omega)]
      exact hlo_ge
  have hg0 : 0 ≤ hq - i := by
    have := Int.floor_le hq
    rw [← hi] at this
    linarith
  have hg1 : hq - i ≤ 1 := by
    have := Int.lt_floor_add_one hq
    rw [← hi] at this
    linarith
  nlinarith [mul_nonneg (sub_nonneg.mpr hg1) (sub_nonneg.mpr hlo_ge),
    mul_nonneg hg0 (sub_nonneg.mpr hhi_ge)]

theorem one_le_countLE_npQuantile (xs : List ℚ) (hxs : xs ≠ []) (q : ℚ)
    (hq0 : 0 ≤ q) (hq1 : q ≤ 1) : 1 ≤ countLE xs (npQuantile xs q) := by
  obtain ⟨x, hx, hle⟩ := exists_le_npQuantile xs hxs q hq0 hq1
  have hmem : x ∈ xs.filter (fun y => decide (y ≤ npQuantile xs q)) :=
    List.mem_filter.mpr ⟨hx, by simpa using hle⟩
  have hpos := List.length_pos.mpr (List.ne_nil_of_mem hmem)
  simpa [countLE] using hpos

theorem countLE_le_length (xs : List ℚ) (q : ℚ) : countLE xs q ≤ xs.length :=
  List.length_filter_le _ _

theorem runScan_explore_acc (fdf : List (String × ℚ)) (ev : List String → List String → ℚ)
    (orgTr orgTe : List String) (thr : ℚ) (cands : List Int) :
    (runScan fdf ev orgTr orgTe (exploreUpd thr) [] cands).acc
      = (passingCounts fdf ev thr orgTr orgTe cands).map
          (fun n => (round4 (evalCandidate fdf ev orgTr orgTe n), n)) := by
  rw [runScan_eq]
  have h := foldl_explore
    (fun n => passes thr (evalCandidate fdf ev orgTr orgTe n))
    (fun n => (round4 (evalCandidate fdf ev orgTr orgTe n), n))
    (fun acc n => exploreUpd thr acc (evalCandidate fdf ev orgTr orgTe n) n)
    (fun a n => rfl) cands []
  simpa [passingCounts] using h

theorem runScan_auto_acc (fdf : List (String × ℚ)) (ev : List String → List String → ℚ)
    (orgTr orgTe : List String) (thr : ℚ) (cands : List Int) :
    (runScan fdf ev orgTr orgTe (autoUpd thr) none cands).acc
      = (passingCounts fdf ev thr orgTr orgTe cands).getLast? := by
  rw [runScan_eq]
  have h := foldl_lastPassing
    (fun n => passes thr (evalCandidate fdf ev orgTr orgTe n))
    (fun acc n => autoUpd thr acc (evalCandidate fdf ev orgTr orgTe n) n)
    (fun a n => rfl) cands none
  have hor : ∀ o : Option Int, optOr o none = o := by intro o; cases o <;> rfl
  rw [hor] at h
  simpa [passingCounts] using h

/-! ### Characterizations of the four functions in terms of the passing counts -/

theorem isEmpty_map {α β : Type} (f : α → β) (l : List α) :
    (l.map f).isEmpty = l.isEmpty := by cases l <;> rfl

theorem interpretable_feature_selection_eq (fi : List (String × ℚ)) (auc_limit : ℚ)
    (importance_type : String) (ci : ℚ) (steps : Int) (xtrain xtest : List String)
    (ev : List String → List String → ℚ)
    (h : validImportanceTypes.contains importance_type = true) (hfi : ¬ fi = []) :
    interpretable_feature_selection fi auc_limit importance_type ci steps xtrain xtest ev =
      .ok ((passingCounts (sortDesc fi) ev (acceptThreshold auc_limit ci) xtrain xtest
              (broadCandidates ((sortDesc fi).map Prod.snd) steps)).map
            (fun n => (round4 (evalCandidate (sortDesc fi) ev xtrain xtest n), n)),
          (passingCounts (sortDesc fi) ev (acceptThreshold auc_limit ci) xtrain xtest
              (broadCandidates ((sortDesc fi).map Prod.snd) steps)).isEmpty) := by
  unfold interpretable_feature_selection
  rw [if_pos h, if_neg hfi]
  simp only [runScan_explore_acc, isEmpty_map]

theorem interpretable_precise_feature_selection_eq (fi : List (String × ℚ))
    (start_num_features : Int) (auc_limit : ℚ) (importance_type : String) (ci : ℚ)
    (span : Int) (xtrain xtest : List String) (ev : List String → List String → ℚ)
    (h : validImportanceTypes.contains importance_type = true) :
    interpretable_precise_feature_selection fi start_num_features auc_limit
        importance_type ci span xtrain xtest ev =
      .ok ((passingCounts (sortDesc fi) ev (acceptThreshold auc_limit ci) xtrain xtest
              (preciseCandidates start_num_features span)).map
            (fun n => (round4 (evalCandidate (sortDesc fi) ev xtrain xtest n), n)),
          (passingCounts (sortDesc fi) ev (acceptThreshold auc_limit ci) xtrain xtest
              (preciseCandidates start_num_features span)).isEmpty) := by
  unfold interpretable_precise_feature_selection
  rw [if_pos h]
  simp only [runScan_explore_acc, isEmpty_map]

theorem automated_feature_selection_eq (fi : List (String × ℚ)) (auc_limit : ℚ)
    (importance_type : String) (ci : ℚ) (steps : Int) (xtrain xtest : List String)
    (ev : List String → List String → ℚ)
    (h : validImportanceTypes.contains importance_type = true) (hfi : ¬ fi = []) :
    automated_feature_selection fi auc_limit importance_type ci steps xtrain xtest ev =
      if pyFalsy (passingCounts (sortDesc fi) ev (acceptThreshold auc_limit ci)
          xtrain xtest (broadCandidates ((sortDesc fi).map Prod.snd) steps)).getLast?
      then .ok ((xtrain.length : Int), true)
      else .ok (((passingCounts (sortDesc fi) ev (acceptThreshold auc_limit ci)
          xtrain xtest
          (broadCandidates ((sortDesc fi).map Prod.snd) steps)).getLast?).getD 0, false) := by
  unfold automated_feature_selection
  rw [if_pos h, if_neg hfi]
  simp only [runScan_auto_acc]

theorem automated_precise_feature_selection_eq (fi : List (String × ℚ))
    (start_num_features : Int) (auc_limit : ℚ) (importance_type : String) (ci : ℚ)
    (span : Int) (xtrain xtest : List String) (ev : List String → List String → ℚ)
    (h : validImportanceTypes.contains importance_type = true) :
    automated_precise_feature_selection fi start_num_features auc_limit
        importance_type ci span xtrain xtest ev =
      if pyFalsy (passingCounts (sortDesc fi) ev (acceptThreshold auc_limit ci)
          xtrain xtest (preciseCandidates start_num_features span)).getLast?
      then .ok (start_num_features, true)
      else .ok (((passingCounts (sortDesc fi) ev (acceptThreshold auc_limit ci)
          xtrain xtest (preciseCandidates start_num_features span)).getLast?).getD 0,
        false) := by
  unfold automated_precise_feature_selection
  rw [if_pos h]
  simp only [runScan_auto_acc]

/-! ### Claim theorems -/

/-- C2: for every `auc_limit` and every confidence level `ci` with
`0 < ci ≤ 1`, the acceptance threshold equals `auc_limit * (ci - (1-ci)/2)`,
a candidate's score `s` passes iff `s ≥ threshold` (greater-or-equal, the
boundary score itself passes), and when `ci = 1` the threshold equals
`auc_limit` exactly. -/
theorem C2_threshold_formula (auc_limit ci : ℚ) (hci0 : 0 < ci) (hci1 : ci ≤ 1) :
    acceptThreshold auc_limit ci = auc_limit * (ci - (1 - ci)/2) ∧
    (∀ s : ℚ, passes (acceptThreshold auc_limit ci) s = true ↔
      auc_limit * (ci - (1 - ci)/2) ≤ s) ∧
    passes (acceptThreshold auc_limit ci) (auc_limit * (ci - (1 - ci)/2)) = true ∧
    (ci = 1 → acceptThreshold auc_limit ci = auc_limit) := by
  refine ⟨rfl, ?_, ?_, ?_⟩
  · intro s
    simp [passes, acceptThreshold, zScore]
  · simp [passes, acceptThreshold, zScore]
  · rintro rfl
    norm_num [acceptThreshold, zScore]

/-- Witness for C2 at `auc_limit = 1`, `ci = 1`. -/
theorem C2_threshold_formula_witness : acceptThreshold 1 1 = 1 :=
  (C2_threshold_formula 1 1 (by norm_num) (by norm_num)).2.2.2 rfl

/-- C4: for every `start_num_features` and positive `span`, the precise
searches scan exactly the counts from `start_num_features + span` down to
`start_num_features - span` inclusive, decrementing by 1 with no skipping,
and neither precise function ever returns a count outside that range (the
fallback `start_num_features` also lies inside it). -/
theorem C4_precise_scan_range (start_num_features span : Int) (hspan : 0 < span) :
    (∀ n : Int, n ∈ preciseCandidates start_num_features span ↔
      start_num_features - span ≤ n ∧ n ≤ start_num_features + span) ∧
    List.Chain' (fun x y => y = x - 1) (preciseCandidates start_num_features span) ∧
    (∀ (fi : List (String × ℚ)) (auc_limit ci : ℚ) (importance_type : String)
        (xtrain xtest : List String) (ev : List String → List String → ℚ) (r : Int) (w : Bool),
      automated_precise_feature_selection fi start_num_features auc_limit importance_type ci
          span xtrain xtest ev = .ok (r, w) →
      start_num_features - span ≤ r ∧ r ≤ start_num_features + span) ∧
    (∀ (fi : List (String × ℚ)) (auc_limit ci : ℚ) (importance_type : String)
        (xtrain xtest : List String) (ev : List String → List String → ℚ)
        (L : List (ℚ × Int)) (w : Bool),
      interpretable_precise_feature_selection fi start_num_features auc_limit importance_type
          ci span xtrain xtest ev = .ok (L, w) →
      ∀ pr ∈ L, start_num_features - span ≤ pr.2 ∧ pr.2 ≤ start_num_features + span) := by
  have hmem : ∀ n : Int, n ∈ preciseCandidates start_num_features span ↔
      start_num_features - span ≤ n ∧ n ≤ start_num_features + span := by
    intro n
    rw [preciseCandidates, pyRangeDown_mem _ _ _ (by norm_num)]
    constructor
    · rintro ⟨k, rfl, h2⟩
      simp only [Nat.cast_one, mul_one]
      omega
    · rintro ⟨h1, h2⟩
      refine ⟨(start_num_features + span - n).toNat, ?_, by omega⟩
      simp only [Nat.cast_one, mul_one]
      omega
  refine ⟨hmem, pyRangeDown_chain_one _ _, ?_, ?_⟩
  · intro fi auc_limit ci importance_type xtrain xtest ev r w h
    by_cases hv : validImportanceTypes.contains importance_type = true
    · rw [automated_precise_feature_selection_eq fi start_num_features auc_limit
        importance_type ci span xtrain xtest ev hv] at h
      split_ifs at h with hfal
      · simp only [Except.ok.injEq, Prod.mk.injEq] at h
        obtain ⟨h1, -⟩ := h
        subst h1
        omega
      · cases hgl : (passingCounts (sortDesc fi) ev (acceptThreshold auc_limit ci)
            xtrain xtest (preciseCandidates start_num_features span)).getLast? with
        | none => rw [hgl] at hfal; exact absurd rfl hfal
        | some y =>
          rw [hgl] at h
          simp only [Option.getD_some, Except.ok.injEq, Prod.mk.injEq] at h
          obtain ⟨hyr, -⟩ := h
          obtain ⟨hne, hy⟩ := List.mem_getLast?_eq_getLast (Option.mem_def.mpr hgl)
          have hymem : y ∈ preciseCandidates start_num_features span := by
            have : y ∈ passingCounts (sortDesc fi) ev (acceptThreshold auc_limit ci)
                xtrain xtest (preciseCandidates start_num_features span) := by
              rw [hy]; exact List.getLast_mem hne
            exact List.mem_of_mem_filter this
          rw [← hyr]
          exact (hmem y).mp hymem
    · unfold automated_precise_feature_selection at h
      rw [if_neg hv] at h
      exact absurd h (by simp)
  · intro fi auc_limit ci importance_type xtrain xtest ev L w h
    by_cases hv : validImportanceTypes.contains importance_type = true
    · rw [interpretable_precise_feature_selection_eq fi start_num_features auc_limit
        importance_type ci span xtrain xtest ev hv] at h
      simp only [Except.ok.injEq, Prod.mk.injEq] at h
      obtain ⟨hL, -⟩ := h
      intro pr hpr
      rw [← hL] at hpr
      obtain ⟨n, hn, rfl⟩ := List.mem_map.mp hpr
      have hnmem : n ∈ preciseCandidates start_num_features span :=
        List.mem_of_mem_filter hn
      exact (hmem n).mp hnmem
    · unfold interpretable_precise_feature_selection at h
      rw [if_neg hv] at h
      exact absurd h (by simp)

/-- Witness for C4 at `start_num_features = 2`, `span = 3`: the scanned
range includes the count 0. -/
theorem C4_precise_scan_range_witness : (0:Int) ∈ preciseCandidates 2 3 :=
  ((C4_precise_scan_range 2 3 (by norm_num)).1 0).mpr (by norm_num)

/-- C3: the broad searches scan exactly the counts obtained by starting at
the number of features at or below the 75th-percentile importance and
stepping down by `steps` while staying at or above the number of features
at or below the 25th-percentile importance; on a 70-feature table whose
quartile bounds are 53 and 18 with `steps = 5` this is exactly
`[53, 48, 43, 38, 33, 28, 23, 18]` in descending order. -/
theorem C3_broad_scan_range (scores : List ℚ) (steps : Int) (hsteps : 0 < steps) :
    (∀ n : Int, n ∈ broadCandidates scores steps ↔
      ∃ k : ℕ, n = (countLE scores (npQuantile scores (3/4)) : Int) - (k : ℤ) * steps ∧
        (countLE scores (npQuantile scores (1/4)) : Int) ≤ n) ∧
    broadCandidates ((List.range 70).map (fun i => if i = 52 then (52:ℚ) else (i+1:ℚ))) 5
      = [53, 48, 43, 38, 33, 28, 23, 18] := by
  constructor
  · intro n
    have habs : ((steps.natAbs : ℕ) : ℤ) = steps := Int.natAbs_of_nonneg (le_of_lt hsteps)
    rw [broadCandidates, pyRangeDown_mem _ _ _ (by omega : 0 < steps.natAbs)]
    constructor
    · rintro ⟨k, hk, h2⟩
      rw [habs] at hk
      exact ⟨k, hk, by omega⟩
    · rintro ⟨k, hk, h2⟩
      refine ⟨k, by rw [habs]; exact hk, by omega⟩
  · with_unfolding_all decide

/-- Witness for C3: the quartile-range example evaluated on the concrete
70-feature table. -/
theorem C3_broad_scan_range_witness :
    broadCandidates ((List.range 70).map (fun i => if i = 52 then (52:ℚ) else (i+1:ℚ))) 5
      = [53, 48, 43, 38, 33, 28, 23, 18] :=
  (C3_broad_scan_range [] 5 (by norm_num)).2

/-- C9: after any number of completed iterations the loop state again holds
the original `xtrain`/`xtest` tables, so the next iteration computes its
candidate subset from the original full tables and restores them again; no
iteration observes a feature set narrowed by a prior iteration, and the
loop never changes the caller-supplied tables. -/
theorem C9_state_restoration (α : Type) (fdf : List (String × ℚ))
    (ev : List String → List String → ℚ) (orgTr orgTe : List String)
    (upd : α → ℚ → Int → α) (init : α) (done : List Int) (n : Int) :
    (runScan fdf ev orgTr orgTe upd init done).xtrain = orgTr ∧
    (runScan fdf ev orgTr orgTe upd init done).xtest = orgTe ∧
    scanStep fdf ev orgTr orgTe upd (runScan fdf ev orgTr orgTe upd init done) n =
      ⟨orgTr, orgTe,
        upd (runScan fdf ev orgTr orgTe upd init done).acc
          (evalCandidate fdf ev orgTr orgTe n) n⟩ := by
  rw [runScan_eq]
  exact ⟨rfl, rfl, rfl⟩

/-- C5: when no scanned candidate passes, the automated broad search returns
the total column count with the warning flag, the automated precise search
returns `start_num_features` with the warning flag, and both exploratory
searches return the empty list with the warning flag; all four return
normally (`Except.ok`), never an exception. -/
theorem C5_empty_acceptance_fallbacks (fi : List (String × ℚ)) (auc_limit ci : ℚ)
    (importance_type : String) (steps start_num_features span : Int)
    (xtrain xtest : List String) (ev : List String → List String → ℚ)
    (hv : validImportanceTypes.contains importance_type = true) :
    (fi ≠ [] →
      (∀ n ∈ broadCandidates ((sortDesc fi).map Prod.snd) steps,
        passes (acceptThreshold auc_limit ci) (evalCandidate (sortDesc fi) ev xtrain xtest n)
          = false) →
      automated_feature_selection fi auc_limit importance_type ci steps xtrain xtest ev
          = .ok ((xtrain.length : Int), true) ∧
      interpretable_feature_selection fi auc_limit importance_type ci steps xtrain xtest ev
          = .ok ([], true)) ∧
    ((∀ n ∈ preciseCandidates start_num_features span,
        passes (acceptThreshold auc_limit ci) (evalCandidate (sortDesc fi) ev xtrain xtest n)
          = false) →
      automated_precise_feature_selection fi start_num_features auc_limit importance_type ci
          span xtrain xtest ev = .ok (start_num_features, true) ∧
      interpretable_precise_feature_selection fi start_num_features auc_limit importance_type
          ci span xtrain xtest ev = .ok ([], true)) := by
  have hfil : ∀ cands : List Int,
      (∀ n ∈ cands, passes (acceptThreshold auc_limit ci)
          (evalCandidate (sortDesc fi) ev xtrain xtest n) = false) →
      passingCounts (sortDesc fi) ev (acceptThreshold auc_limit ci) xtrain xtest cands
        = [] := by
    intro cands hall
    rw [passingCounts, List.filter_eq_nil_iff]
    intro a ha
    simp [hall a ha]
  constructor
  · intro hfi hall
    have he := hfil _ hall
    constructor
    · rw [automated_feature_selection_eq _ _ _ _ _ _ _ _ hv hfi, he]
      rfl
    · rw [interpretable_feature_selection_eq _ _ _ _ _ _ _ _ hv hfi, he]
      rfl
  · intro hall
    have he := hfil _ hall
    constructor
    · rw [automated_precise_feature_selection_eq _ _ _ _ _ _ _ _ _ hv, he]
      rfl
    · rw [interpretable_precise_feature_selection_eq _ _ _ _ _ _ _ _ _ hv, he]
      rfl

/-- Witness for C5: with a constant evaluator score 0 and threshold 1
nothing passes, and the two automated functions return their fallbacks with
the warning flag. -/
theorem C5_empty_acceptance_fallbacks_witness :
    automated_feature_selection [("a",(1:ℚ))] 1 "gain" 1 5 ["a"] ["a"] (fun _ _ => 0)
        = .ok (1, true) ∧
    automated_precise_feature_selection [("a",(1:ℚ))] 3 1 "gain" 1 5 ["a"] ["a"]
        (fun _ _ => 0) = .ok (3, true) := by
  have h := C5_empty_acceptance_fallbacks [("a",(1:ℚ))] 1 1 "gain" 5 3 5 ["a"] ["a"]
    (fun _ _ => 0) (by decide)
  refine ⟨(h.1 (by decide) ?_).1, (h.2 ?_).1⟩
  · intro n hn
    with_unfolding_all rfl
  · intro n hn
    with_unfolding_all rfl

/-- C6: the exploratory searches return exactly the
`(round(auc,4), count)` pairs of the passing candidates, appended in the
search's iteration order, which is strictly descending in the count; the
list is not re-sorted by score. -/
theorem C6_exploratory_order (fi : List (String × ℚ)) (auc_limit ci : ℚ)
    (importance_type : String) (steps start_num_features span : Int)
    (xtrain xtest : List String) (ev : List String → List String → ℚ)
    (hv : validImportanceTypes.contains importance_type = true) (hsteps : steps ≠ 0) :
    (fi ≠ [] →
      interpretable_feature_selection fi auc_limit importance_type ci steps xtrain xtest ev
        = .ok ((passingCounts (sortDesc fi) ev (acceptThreshold auc_limit ci) xtrain xtest
              (broadCandidates ((sortDesc fi).map Prod.snd) steps)).map
            (fun n => (round4 (evalCandidate (sortDesc fi) ev xtrain xtest n), n)),
          (passingCounts (sortDesc fi) ev (acceptThreshold auc_limit ci) xtrain xtest
              (broadCandidates ((sortDesc fi).map Prod.snd) steps)).isEmpty) ∧
      List.Pairwise (fun x y : ℚ × Int => y.2 < x.2)
        ((passingCounts (sortDesc fi) ev (acceptThreshold auc_limit ci) xtrain xtest
            (broadCandidates ((sortDesc fi).map Prod.snd) steps)).map
          (fun n => (round4 (evalCandidate (sortDesc fi) ev xtrain xtest n), n)))) ∧
    (interpretable_precise_feature_selection fi start_num_features auc_limit importance_type
        ci span xtrain xtest ev
      = .ok ((passingCounts (sortDesc fi) ev (acceptThreshold auc_limit ci) xtrain xtest
            (preciseCandidates start_num_features span)).map
          (fun n => (round4 (evalCandidate (sortDesc fi) ev xtrain xtest n), n)),
        (passingCounts (sortDesc fi) ev (acceptThreshold auc_limit ci) xtrain xtest
            (preciseCandidates start_num_features span)).isEmpty) ∧
      List.Pairwise (fun x y : ℚ × Int => y.2 < x.2)
        ((passingCounts (sortDesc fi) ev (acceptThreshold auc_limit ci) xtrain xtest
            (preciseCandidates start_num_features span)).map
          (fun n => (round4 (evalCandidate (sortDesc fi) ev xtrain xtest n), n)))) := by
  have hpw : ∀ cands : List Int, cands.Pairwise (fun x y => y < x) →
      List.Pairwise (fun x y : ℚ × Int => y.2 < x.2)
        ((passingCounts (sortDesc fi) ev (acceptThreshold auc_limit ci) xtrain xtest
            cands).map
          (fun n => (round4 (evalCandidate (sortDesc fi) ev xtrain xtest n), n))) := by
    intro cands hc
    rw [List.pairwise_map]
    refine List.Pairwise.imp ?_ (List.Pairwise.filter _ hc)
    intro a b hab
    simpa using hab
  refine ⟨fun hfi => ⟨?_, ?_⟩, ⟨?_, ?_⟩⟩
  · exact interpretable_feature_selection_eq fi auc_limit importance_type ci steps
      xtrain xtest ev hv hfi
  · exact hpw _ (pyRangeDown_pairwise _ _ _ (by omega))
  · exact interpretable_precise_feature_selection_eq fi start_num_features auc_limit
      importance_type ci span xtrain xtest ev hv
  · exact hpw _ (pyRangeDown_pairwise _ _ _ (by norm_num))

/-- Witness for C6: on a concrete run every pair's count strictly decreases
along the returned list. -/
theorem C6_exploratory_order_witness :
    List.Pairwise (fun x y : ℚ × Int => y.2 < x.2)
      ((passingCounts (sortDesc [("a",(1:ℚ))]) (fun _ _ => 1) (acceptThreshold 1 1)
          ["a"] ["a"] (preciseCandidates 3 2)).map
        (fun n => (round4 (evalCandidate (sortDesc [("a",(1:ℚ))]) (fun _ _ => 1)
            ["a"] ["a"] n), n))) :=
  (C6_exploratory_order [("a",(1:ℚ))] 1 1 "gain" 5 3 2 ["a"] ["a"] (fun _ _ => 1)
    (by decide) (by norm_num)).2.2

/-- C8: an unrecognized `importance_type` makes all four functions fail with
the `invalidImportanceType` error, surfaced to the caller; for a recognized
kind none of them raises that error and the ranking step merely reorders
the importance table (it is a permutation, with no effect on any other
state). -/
theorem C8_invalid_importance_type (fi : List (String × ℚ)) (auc_limit ci : ℚ)
    (importance_type : String) (steps start_num_features span : Int)
    (xtrain xtest : List String) (ev : List String → List String → ℚ) :
    (validImportanceTypes.contains importance_type = false →
      interpretable_feature_selection fi auc_limit importance_type ci steps xtrain xtest ev
          = .error .invalidImportanceType ∧
      interpretable_precise_feature_selection fi start_num_features auc_limit importance_type
          ci span xtrain xtest ev = .error .invalidImportanceType ∧
      automated_feature_selection fi auc_limit importance_type ci steps xtrain xtest ev
          = .error .invalidImportanceType ∧
      automated_precise_feature_selection fi start_num_features auc_limit importance_type ci
          span xtrain xtest ev = .error .invalidImportanceType) ∧
    (validImportanceTypes.contains importance_type = true →
      (sortDesc fi).Perm fi ∧
      interpretable_feature_selection fi auc_limit importance_type ci steps xtrain xtest ev
          ≠ .error .invalidImportanceType ∧
      interpretable_precise_feature_selection fi start_num_features auc_limit importance_type
          ci span xtrain xtest ev ≠ .error .invalidImportanceType ∧
      automated_feature_selection fi auc_limit importance_type ci steps xtrain xtest ev
          ≠ .error .invalidImportanceType ∧
      automated_precise_feature_selection fi start_num_features auc_limit importance_type ci
          span xtrain xtest ev ≠ .error .invalidImportanceType) := by
  constructor
  · intro hv
    have hv' : ¬ (validImportanceTypes.contains importance_type = true) := by
      rw [hv]
      simp
    refine ⟨?_, ?_, ?_, ?_⟩
    · unfold interpretable_feature_selection
      rw [if_neg hv']
    · unfold interpretable_precise_feature_selection
      rw [if_neg hv']
    · unfold automated_feature_selection
      rw [if_neg hv']
    · unfold automated_precise_feature_selection
      rw [if_neg hv']
  · intro hv
    refine ⟨List.perm_insertionSort _ fi, ?_, ?_, ?_, ?_⟩
    · intro hcontra
      by_cases hfi : fi = []
      · unfold interpretable_feature_selection at hcontra
        rw [if_pos hv, if_pos hfi] at hcontra
        simp at hcontra
      · rw [interpretable_feature_selection_eq fi auc_limit importance_type ci steps
          xtrain xtest ev hv hfi] at hcontra
        simp at hcontra
    · intro hcontra
      rw [interpretable_precise_feature_selection_eq fi start_num_features auc_limit
        importance_type ci span xtrain xtest ev hv] at hcontra
      simp at hcontra
    · intro hcontra
      by_cases hfi : fi = []
      · unfold automated_feature_selection at hcontra
        rw [if_pos hv, if_pos hfi] at hcontra
        simp at hcontra
      · rw [automated_feature_selection_eq fi auc_limit importance_type ci steps
          xtrain xtest ev hv hfi] at hcontra
        split_ifs at hcontra
    · intro hcontra
      rw [automated_precise_feature_selection_eq fi start_num_features auc_limit
        importance_type ci span xtrain xtest ev hv] at hcontra
      split_ifs at hcontra

/-- C1 counterexample: with `start_num_features = 4`, `span = 4` and a
constant evaluator score of 1 against threshold 1, every scanned candidate
(8 down to 0) passes, so the smallest passing count is 0; the claim says the
function returns it, but `automated_precise_feature_selection` returns the
fallback 4 with a warning because `if not lowest_num_features` treats the
stored count 0 as falsy. -/
theorem C1_counterexample :
    automated_precise_feature_selection [] 4 1 "gain" 1 4 [] [] (fun _ _ => 1)
        = .ok (4, true) ∧
    passingCounts (sortDesc []) (fun _ _ => 1) (acceptThreshold 1 1) [] []
        (preciseCandidates 4 4) = [8, 7, 6, 5, 4, 3, 2, 1, 0] ∧
    (4 : Int) ≠ 0 := by
  with_unfolding_all decide

/-- C1 amended: the automated searches assign the candidate count to the
running variable on every pass, so when at least one scanned candidate
passes and the smallest passing count is nonzero, the returned value is the
smallest scanned count that passed (no warning); for the broad search the
smallest passing count is automatically nonzero. -/
theorem C1_smallest_passing_count (fi : List (String × ℚ)) (auc_limit ci : ℚ)
    (importance_type : String) (xtrain xtest : List String)
    (ev : List String → List String → ℚ)
    (hv : validImportanceTypes.contains importance_type = true) :
    (∀ start_num_features span y : Int,
      (passingCounts (sortDesc fi) ev (acceptThreshold auc_limit ci) xtrain xtest
          (preciseCandidates start_num_features span)).getLast? = some y → y ≠ 0 →
      automated_precise_feature_selection fi start_num_features auc_limit importance_type ci
          span xtrain xtest ev = .ok (y, false) ∧
      y ∈ passingCounts (sortDesc fi) ev (acceptThreshold auc_limit ci) xtrain xtest
          (preciseCandidates start_num_features span) ∧
      (∀ m ∈ passingCounts (sortDesc fi) ev (acceptThreshold auc_limit ci) xtrain xtest
          (preciseCandidates start_num_features span), y ≤ m)) ∧
    (fi ≠ [] → ∀ steps y : Int, 0 < steps →
      (passingCounts (sortDesc fi) ev (acceptThreshold auc_limit ci) xtrain xtest
          (broadCandidates ((sortDesc fi).map Prod.snd) steps)).getLast? = some y →
      automated_feature_selection fi auc_limit importance_type ci steps xtrain xtest ev
          = .ok (y, false) ∧
      y ∈ passingCounts (sortDesc fi) ev (acceptThreshold auc_limit ci) xtrain xtest
          (broadCandidates ((sortDesc fi).map Prod.snd) steps) ∧
      (∀ m ∈ passingCounts (sortDesc fi) ev (acceptThreshold auc_limit ci) xtrain xtest
          (broadCandidates ((sortDesc fi).map Prod.snd) steps), y ≤ m)) := by
  have hmempass : ∀ (cands : List Int) (y : Int),
      (passingCounts (sortDesc fi) ev (acceptThreshold auc_limit ci) xtrain xtest
        cands).getLast? = some y →
      y ∈ passingCounts (sortDesc fi) ev (acceptThreshold auc_limit ci) xtrain xtest
        cands := by
    intro cands y hgl
    obtain ⟨hne, hy⟩ := List.mem_getLast?_eq_getLast (Option.mem_def.mpr hgl)
    rw [hy]
    exact List.getLast_mem hne
  have hminpass : ∀ (cands : List Int) (y : Int), cands.Pairwise (fun x z => z < x) →
      (passingCounts (sortDesc fi) ev (acceptThreshold auc_limit ci) xtrain xtest
        cands).getLast? = some y →
      ∀ m ∈ passingCounts (sortDesc fi) ev (acceptThreshold auc_limit ci) xtrain xtest
        cands, y ≤ m := by
    intro cands y hpw hgl
    exact getLast_pairwise_min _ (List.Pairwise.filter _ hpw) y hgl
  constructor
  · intro start_num_features span y hgl hy0
    refine ⟨?_, hmempass _ y hgl, hminpass _ y (pyRangeDown_pairwise _ _ _ (by norm_num)) hgl⟩
    rw [automated_precise_feature_selection_eq fi start_num_features auc_limit
      importance_type ci span xtrain xtest ev hv, hgl]
    have hfal : pyFalsy (some y) = false := by
      simp [pyFalsy, hy0]
    rw [hfal]
    simp
  · intro hfi steps y hsteps hgl
    have hsabs : 0 < steps.natAbs := by omega
    have hscores : ((sortDesc fi).map Prod.snd) ≠ [] := by
      intro hmap
      have hsd : sortDesc fi = [] := by
        cases hsd' : sortDesc fi with
        | nil => rfl
        | cons a t => rw [hsd'] at hmap; simp at hmap
      have hlen : (sortDesc fi).length = fi.length :=
        (List.perm_insertionSort _ fi).length_eq
      rw [hsd] at hlen
      exact hfi (List.length_eq_zero.mp hlen.symm)
    have hy1 : 1 ≤ y := by
      have hymem := hmempass _ y hgl
      have hycand : y ∈ broadCandidates ((sortDesc fi).map Prod.snd) steps :=
        List.mem_of_mem_filter hymem
      obtain ⟨hlow, -⟩ := pyRangeDown_bounds hsabs hycand
      have hc25 := one_le_countLE_npQuantile ((sortDesc fi).map Prod.snd) hscores (1/4)
        (by norm_num) (by norm_num)
      omega
    refine ⟨?_, hmempass _ y hgl, hminpass _ y (pyRangeDown_pairwise _ _ _ hsabs) hgl⟩
    rw [automated_feature_selection_eq fi auc_limit importance_type ci steps
      xtrain xtest ev hv hfi, hgl]
    have hfal : pyFalsy (some y) = false := by
      simp [pyFalsy]
      omega
    rw [hfal]
    simp

/-- Witness for C1 amended: `start_num_features = 5`, `span = 2`, constant
score 1 against threshold 1 — all of 7..3 pass and the function returns
the smallest scanned count 3. -/
theorem C1_smallest_passing_count_witness :
    automated_precise_feature_selection [] 5 1 "gain" 1 2 [] [] (fun _ _ => 1)
        = .ok (3, false) :=
  ((C1_smallest_passing_count [] 1 1 "gain" [] [] (fun _ _ => 1) (by decide)).1 5 2 3
    (by with_unfolding_all decide) (by decide)).1

/-- C7 counterexample: a run of `interpretable_precise_feature_selection` on
a one-feature table with `start_num_features = 1`, `span = 5` generates and
evaluates the counts 6 down to -4; the returned pairs include counts 0, -4
(below 1) and 6 (above the total feature count 1), refuting the claimed
bound `1 ≤ count ≤ total_features` for the precise searches. -/
theorem C7_counterexample :
    interpretable_precise_feature_selection [("a",(1:ℚ))] 1 1 "gain" 1 5 ["a"] ["a"]
        (fun _ _ => 1)
      = .ok ([(1,6),(1,5),(1,4),(1,3),(1,2),(1,1),(1,0),(1,-1),(1,-2),(1,-3),(1,-4)],
          false) ∧
    ¬ (1 : Int) ≤ -4 ∧ ¬ (6 : Int) ≤ 1 := by
  with_unfolding_all decide

/-- C7 amended: every broad-search candidate count `n` satisfies
`1 ≤ n ≤ total_features`; for every nonnegative candidate count the
evaluated subset consists of exactly the columns among the top-`count`
ranked feature names; precise-search counts, however, can leave the range
`[1, total_features]` (for example 0 is scanned whenever
`0 ≤ start_num_features ≤ span`). -/
theorem C7_candidate_bounds :
    (∀ (scores : List ℚ) (steps : Int), scores ≠ [] → steps ≠ 0 →
      ∀ n ∈ broadCandidates scores steps, 1 ≤ n ∧ n ≤ (scores.length : Int)) ∧
    (∀ (fdf : List (String × ℚ)) (ev : List String → List String → ℚ)
        (xtr xte : List String) (n : Int), 0 ≤ n →
      evalCandidate fdf ev xtr xte n =
        ev (xtr.filter (fun c => ((fdf.take n.toNat).map Prod.fst).contains c))
          (xte.filter (fun c => ((fdf.take n.toNat).map Prod.fst).contains c))) ∧
    (∀ start_num_features span : Int, 0 ≤ start_num_features →
      start_num_features ≤ span → (0:Int) ∈ preciseCandidates start_num_features span) := by
  refine ⟨?_, ?_, ?_⟩
  · intro scores steps hs hst n hn
    have h0 : 0 < steps.natAbs := by omega
    obtain ⟨hlow, hhigh⟩ := pyRangeDown_bounds h0 hn
    have hc25 := one_le_countLE_npQuantile scores hs (1/4) (by norm_num) (by norm_num)
    have hc75 := countLE_le_length scores (npQuantile scores (3/4))
    omega
  · intro fdf ev xtr xte n hn
    simp only [evalCandidate]
    rw [pyTake, if_pos hn]
  · intro start_num_features span hs hp
    rw [preciseCandidates, pyRangeDown_mem _ _ _ (by norm_num)]
    refine ⟨(start_num_features + span).toNat, ?_, by omega⟩
    simp only [Nat.cast_one, mul_one]
    omega

/-- Witness for C7 amended: the precise scan around 0 with span 5 contains
the candidate count 0. -/
theorem C7_candidate_bounds_witness : (0:Int) ∈ preciseCandidates 0 5 :=
  C7_candidate_bounds.2.2 0 5 le_rfl (by norm_num)

/-- C10: `if not low_num_features` tests Python falsiness, and the stored
count 0 is falsy; hence when the smallest (last stored) passing count is 0,
the automated functions take the no-acceptance branch and return the
fallback (total column count, resp. `start_num_features`) with the warning
instead of returning the accepted count 0 — a situation reachable whenever
the scanned range includes 0, e.g. `0 ≤ start_num_features ≤ span`. -/
theorem C10_zero_count_is_falsy (fi : List (String × ℚ)) (auc_limit ci : ℚ)
    (importance_type : String) (steps start_num_features span : Int)
    (xtrain xtest : List String) (ev : List String → List String → ℚ)
    (hv : validImportanceTypes.contains importance_type = true) :
    pyFalsy (some 0) = true ∧
    ((passingCounts (sortDesc fi) ev (acceptThreshold auc_limit ci) xtrain xtest
        (preciseCandidates start_num_features span)).getLast? = some 0 →
      automated_precise_feature_selection fi start_num_features auc_limit importance_type ci
          span xtrain xtest ev = .ok (start_num_features, true)) ∧
    (fi ≠ [] →
      (passingCounts (sortDesc fi) ev (acceptThreshold auc_limit ci) xtrain xtest
          (broadCandidates ((sortDesc fi).map Prod.snd) steps)).getLast? = some 0 →
      automated_feature_selection fi auc_limit importance_type ci steps xtrain xtest ev
          = .ok ((xtrain.length : Int), true)) ∧
    (∀ s p : Int, 0 ≤ s → s ≤ p → (0:Int) ∈ preciseCandidates s p) := by
  refine ⟨rfl, ?_, ?_, ?_⟩
  · intro hgl
    rw [automated_precise_feature_selection_eq fi start_num_features auc_limit
      importance_type ci span xtrain xtest ev hv, hgl]
    rfl
  · intro hfi hgl
    rw [automated_feature_selection_eq fi auc_limit importance_type ci steps
      xtrain xtest ev hv hfi, hgl]
    rfl
  · intro s p hs hp
    rw [preciseCandidates, pyRangeDown_mem _ _ _ (by norm_num)]
    refine ⟨(s + p).toNat, ?_, by omega⟩
    simp only [Nat.cast_one, mul_one]
    omega

/-- Witness for C10: `start_num_features = 5`, `span = 5`, constant score 1
against threshold 1 — the smallest passing count is 0 and the automated
precise function returns the fallback 5 with the warning. -/
theorem C10_zero_count_is_falsy_witness :
    automated_precise_feature_selection [] 5 1 "gain" 1 5 [] [] (fun _ _ => 1)
        = .ok (5, true) :=
  (C10_zero_count_is_falsy [] 1 1 "gain" 5 5 5 [] [] (fun _ _ => 1) (by decide)).2.1
    (by with_unfolding_all decide)

/-- Witness for C8: the unrecognized kind "weightx" makes the automated
broad search fail with `invalidImportanceType`, while the recognized kind
"gain" leaves the sorted table a permutation of the input. -/
theorem C8_invalid_importance_type_witness :
    automated_feature_selection [] 1 "weightx" 1 5 [] [] (fun _ _ => 0)
        = .error .invalidImportanceType ∧
    (sortDesc [("a",(1:ℚ))]).Perm [("a",(1:ℚ))] := by
  constructor
  · exact ((C8_invalid_importance_type [] 1 1 "weightx" 5 0 5 [] []
      (fun _ _ => 0)).1 (by decide)).2.2.1
  · exact ((C8_invalid_importance_type [("a",(1:ℚ))] 1 1 "gain" 5 0 5 [] []
      (fun _ _ => 0)).2 (by decide)).1
